import Mathlib

/-
Verification development for the nanoagent control loop and tool system.

The TypeScript sources are embedded shallowly:
  * content.ts / message.ts: `Content`, `Role`, `Message` and the role
    predicates.  Message fields that the control loop never consults
    (tool_call ids, tool_calls payloads) are elided from the embedding.
  * tool.ts: `composePatches` over an association-list memory (`Mem`),
    mirroring the JS object semantics (unique keys, `Object.keys` scan,
    comparison of each value against the original base memory).
  * workflow.ts: `HaltStatus`, `AgentState`, `AgentContext`, `stepAgent`,
    `loopAgent`, `Sequence`, `runWorkflow`.  Asynchronous external calls
    become explicit oracles: the model is a function returning
    `Except String`, and the `requestsUserInput` heuristic of yes.ts is an
    oracle `Content → Bool`.  Debug logging and the `stop` cancellation hook
    are I/O only and have no effect on the returned state, so they are not
    part of the embedding.  The JS `getUserInput(ctx, state)` hook receives
    the context itself as first argument; the embedding drops that
    self-reference and keeps the state argument.
  * Reference identity of `Sequence` objects (the sentinel used by
    `runWorkflow`) is modelled by a `uid` field: every `new Sequence(...)`
    allocation receives a fresh uid, while returning `this` keeps the uid.
-/

/- content.ts -/

inductive Content where
  | text (s : String)
  | json (data : String)
  | image (data : String) (mimeType : Option String)
  | imageURL (url : String)
deriving DecidableEq

def isTextContent : Option Content → Bool
  | some (Content.text _) => true
  | _ => false

/- message.ts roles (full MessageRole union) -/

inductive Role where
  | system
  | user
  | assistant
  | tool
  | func
  | systemFunction
  | toolResponse
  | assistantFunctionCall
deriving DecidableEq

structure Message where
  role : Role
  content : Option Content
deriving DecidableEq

/- `UserMessage(content)` factory for a plain string payload. -/
def UserMessage (s : String) : Message :=
  { role := Role.user, content := some (Content.text s) }

/- workflow.ts message predicates -/

def isToolMessage : Option Message → Bool
  | some m => m.role == Role.tool || m.role == Role.func
  | none => false

def isAssistantMessage : Option Message → Bool
  | some m => m.role == Role.assistant
  | none => false

def isEmptyAssistantMessage (m? : Option Message) : Bool :=
  isAssistantMessage m? &&
    (match m?.bind Message.content with
     | none => true
     | some (Content.text s) => s.trim == ""
     | some _ => false)

def hasTwoAssistantInRow (messages : List Message) : Bool :=
  decide (messages.length > 1) &&
    isAssistantMessage messages[messages.length - 1]? &&
    isAssistantMessage messages[messages.length - 2]?

/- workflow.ts halt status -/

inductive HaltStatus where
  | awaitUser
  | toolError (error : String)
  | done
  | stopped
deriving DecidableEq

/- model.ts `Model` interface: the asynchronous `complete` call becomes a
pure oracle that may fail (`Except.error` embeds a thrown exception).  The
third argument embeds the optional tool-descriptor list taken from the
context registry. -/
structure Model (M : Type) where
  complete : List Message → Option M → Option (List String) →
    Except String (List Message × Option M)

/- workflow.ts `AgentState` -/
structure AgentState (M : Type) where
  id : Option String
  model : Model M
  messages : List Message
  memory : Option M
  halted : Option HaltStatus

/- workflow.ts `SequenceOptions` (behaviour-relevant fields; `debug`,
`logger` and `yesModel` drive logging and the oracle only).  The unbounded
default budget (`maxSteps` absent meaning infinity) is outside the
embedding, so `maxSteps` is a plain natural number here. -/
structure SequenceOptions where
  maxSteps : Nat
  preserveInput : Bool
deriving DecidableEq

/- workflow.ts `AgentContext`.  An inductive (not a structure) because the
`nextSequence` hook returns a new context, a strictly positive recursive
occurrence. -/
inductive AgentContext (M : Type) : Type where
  | mk
    (name : Option String)
    (guidelines : Option (M → String))
    (getUserInput : Option (AgentState M → String))
    (isFinal : AgentState M → Bool)
    (registry : Option (List String))
    (nextSequence : Option (AgentState M →
      AgentContext M × AgentState M × Option SequenceOptions))
    (controller : Option (AgentState M → AgentState M))

def AgentContext.name {M : Type} : AgentContext M → Option String
  | .mk n _ _ _ _ _ _ => n

def AgentContext.guidelines {M : Type} : AgentContext M → Option (M → String)
  | .mk _ g _ _ _ _ _ => g

def AgentContext.getUserInput {M : Type} :
    AgentContext M → Option (AgentState M → String)
  | .mk _ _ gi _ _ _ _ => gi

def AgentContext.isFinal {M : Type} : AgentContext M → (AgentState M → Bool)
  | .mk _ _ _ f _ _ _ => f

def AgentContext.registry {M : Type} : AgentContext M → Option (List String)
  | .mk _ _ _ _ r _ _ => r

def AgentContext.nextSequence {M : Type} : AgentContext M →
    Option (AgentState M → AgentContext M × AgentState M × Option SequenceOptions)
  | .mk _ _ _ _ _ ns _ => ns

def AgentContext.controller {M : Type} :
    AgentContext M → Option (AgentState M → AgentState M)
  | .mk _ _ _ _ _ _ c => c

/- `{...nextCtx, getUserInput: ...}` context update used by `Sequence.next`. -/
def AgentContext.withGetUserInput {M : Type} :
    AgentContext M → Option (AgentState M → String) → AgentContext M
  | .mk n g _ f r ns c, gi => .mk n g gi f r ns c

/- workflow.ts `stepAgent`, split along the source's own blocks: the
"already halted" switch, the model-call block and the post-stuck
tool/user-input/goal checks. -/

def finalizeStep {M : Type} (ctx : AgentContext M) (ri : Content → Bool)
    (newState : AgentState M) : AgentState M :=
  let last := newState.messages[newState.messages.length - 1]?
  let finalCheck : AgentState M :=
    if isAssistantMessage last && AgentContext.isFinal ctx newState then
      { newState with halted := some HaltStatus.done }
    else newState
  if isToolMessage last then newState
  else
    match last.bind Message.content with
    | some c =>
        if ri c then { newState with halted := some HaltStatus.awaitUser }
        else finalCheck
    | none => finalCheck

def stepHalted {M : Type} (ctx : AgentContext M) (state : AgentState M) :
    HaltStatus → Except String (AgentState M)
  | HaltStatus.awaitUser =>
      match AgentContext.getUserInput ctx with
      | none => Except.error "No getUserInput handler provided."
      | some getInput =>
          Except.ok { state with
            messages := state.messages ++ [UserMessage (getInput state)],
            halted := none }
  | HaltStatus.toolError _ =>
      match AgentContext.controller ctx with
      | some c => Except.ok (c state)
      | none => Except.ok state
  | HaltStatus.done => Except.ok state
  | HaltStatus.stopped => Except.ok state

def stepRun {M : Type} (ctx : AgentContext M) (state : AgentState M)
    (ri : Content → Bool) : Except String (AgentState M) :=
  match Model.complete state.model state.messages state.memory
      (AgentContext.registry ctx) with
  | Except.error e =>
      let haltedState : AgentState M :=
        { state with halted := some (HaltStatus.toolError e) }
      match AgentContext.controller ctx with
      | some c => Except.ok (c haltedState)
      | none => Except.ok haltedState
  | Except.ok (messages, memory) =>
      let last := messages[messages.length - 1]?
      let newState : AgentState M :=
        { state with messages := messages, memory := memory }
      let isStuck :=
        (messages.length == state.messages.length) ||
          (isAssistantMessage last &&
            (isEmptyAssistantMessage last || hasTwoAssistantInRow messages))
      match AgentContext.controller ctx with
      | some c =>
          if isStuck then Except.ok (c newState)
          else Except.ok (finalizeStep ctx ri newState)
      | none => Except.ok (finalizeStep ctx ri newState)

def stepAgent {M : Type} (ctx : AgentContext M) (state : AgentState M)
    (ri : Content → Bool) : Except String (AgentState M) :=
  match state.halted with
  | some h => stepHalted ctx state h
  | none => stepRun ctx state ri

/- workflow.ts `loopAgent` with an explicit (finite) step budget. -/
def loopAgent {M : Type} (ctx : AgentContext M) (ri : Content → Bool) :
    Nat → AgentState M → Except String (AgentState M)
  | 0, state =>
      if state.halted = some HaltStatus.done ∨
          state.halted = some HaltStatus.stopped then Except.ok state
      else Except.ok { state with halted := some HaltStatus.stopped }
  | n + 1, state =>
      if state.halted = some HaltStatus.done ∨
          state.halted = some HaltStatus.stopped then Except.ok state
      else
        match stepAgent ctx state ri with
        | Except.error e => Except.error e
        | Except.ok next => loopAgent ctx ri n next

/- `loopAgent` instrumented with the number of `stepAgent` invocations
performed. -/
def loopAgentSteps {M : Type} (ctx : AgentContext M) (ri : Content → Bool) :
    Nat → AgentState M → Except String (AgentState M) × Nat
  | 0, state =>
      if state.halted = some HaltStatus.done ∨
          state.halted = some HaltStatus.stopped then (Except.ok state, 0)
      else (Except.ok { state with halted := some HaltStatus.stopped }, 0)
  | n + 1, state =>
      if state.halted = some HaltStatus.done ∨
          state.halted = some HaltStatus.stopped then (Except.ok state, 0)
      else
        match stepAgent ctx state ri with
        | Except.error e => (Except.error e, 1)
        | Except.ok next =>
            let r := loopAgentSteps ctx ri n next
            (r.1, r.2 + 1)

/- workflow.ts `Sequence`: the `uid` field models JS object identity. -/
structure Sequence (M : Type) where
  uid : Nat
  ctx : AgentContext M
  state : AgentState M
  options : SequenceOptions

def Sequence.run {M : Type} (seq : Sequence M) (ri : Content → Bool) :
    Except String (AgentState M) :=
  loopAgent seq.ctx ri seq.options.maxSteps seq.state

/- `Sequence.next`: run to completion, then chain if halted `done` and a
`nextSequence` hook exists (allocating a fresh uid), else return `this`. -/
def Sequence.next {M : Type} (seq : Sequence M) (ri : Content → Bool)
    (freshUid : Nat) : Except String (Sequence M × AgentState M) :=
  match Sequence.run seq ri with
  | Except.error e => Except.error e
  | Except.ok terminal =>
      if terminal.halted = some HaltStatus.done then
        match AgentContext.nextSequence seq.ctx with
        | some f =>
            let next := f terminal
            let nextCtx := next.1
            let nextState := next.2.1
            let nextOpts := next.2.2
            let preserved :=
              if (nextOpts.map SequenceOptions.preserveInput).getD false then
                AgentContext.getUserInput seq.ctx
              else none
            let mergedCtx :=
              AgentContext.withGetUserInput nextCtx
                (match AgentContext.getUserInput nextCtx with
                 | some g => some g
                 | none => preserved)
            let mergedOpts := nextOpts.getD seq.options
            Except.ok
              ({ uid := freshUid, ctx := mergedCtx, state := nextState,
                 options := mergedOpts }, terminal)
        | none => Except.ok (seq, terminal)
      else Except.ok (seq, terminal)

/- workflow.ts `runWorkflow`: push the current sequence, call `next`, mutate
the pushed entry via `resetState(state)`, exit when `next === current`
(uid equality under fresh allocation).  `fuel` bounds the number of loop
iterations; `none` means the JS loop would still be running. -/
def runWorkflowAux {M : Type} (ri : Content → Bool) :
    Nat → Nat → Sequence M → List (Sequence M) →
    Option (Except String (AgentState M × List (Sequence M)))
  | 0, _, _, _ => none
  | fuel + 1, fresh, current, history =>
      match Sequence.next current ri fresh with
      | Except.error e => some (Except.error e)
      | Except.ok (nxt, st) =>
          let mutated : Sequence M := { current with state := st }
          let history2 := history ++ [mutated]
          if nxt.uid = current.uid then some (Except.ok (st, history2))
          else runWorkflowAux ri fuel (fresh + 1) nxt history2

def runWorkflow {M : Type} (ri : Content → Bool) (fuel : Nat)
    (init : Sequence M) :
    Option (Except String (AgentState M × List (Sequence M))) :=
  runWorkflowAux ri fuel (init.uid + 1) init []

/- tool.ts memory: a JS object is an association list with unique keys. -/
abbrev Mem (V : Type) := AList (fun _ : String => V)

/- Inner loop of `composePatches`: scan `Object.keys(acc)` and record every
key that is new w.r.t. `beforeKeys` or whose value differs from the
*original* base memory; fail when a recorded key is already in `written`. -/
def recordWritten {V : Type} [DecidableEq V] (memory : Mem V)
    (beforeKeys : List String) (acc : Mem V) :
    List String → List String → Except String (List String)
  | written, [] => Except.ok written
  | written, k :: ks =>
      if k ∉ beforeKeys ∨ AList.lookup k acc ≠ AList.lookup k memory then
        if k ∈ written then
          Except.error ("Memory-patch conflict on key " ++ k ++ ".")
        else recordWritten memory beforeKeys acc (k :: written) ks
      else recordWritten memory beforeKeys acc written ks

def composeLoop {V : Type} [DecidableEq V] (memory : Mem V) :
    Mem V → List String → List (Option (Mem V → Mem V)) →
    Except String (Mem V)
  | acc, _, [] => Except.ok acc
  | acc, written, none :: ps => composeLoop memory acc written ps
  | acc, written, some patch :: ps =>
      let beforeKeys := AList.keys acc
      let acc2 := patch acc
      match recordWritten memory beforeKeys acc2 written (AList.keys acc2) with
      | Except.error e => Except.error e
      | Except.ok written2 => composeLoop memory acc2 written2 ps

/- tool.ts `composePatches` (lines 163-182). -/
def composePatches {V : Type} [DecidableEq V] (memory : Mem V)
    (patches : List (Option (Mem V → Mem V))) : Except String (Mem V) :=
  composeLoop memory memory [] patches

/- Concrete fixtures used by witnesses. -/

def riNever : Content → Bool := fun _ => false

def modelEcho : Model Nat :=
  { complete := fun msgs mem _ => Except.ok (msgs, mem) }

def modelFail : Model Nat :=
  { complete := fun _ _ _ => Except.error "network down" }

def modelAppendUser : Model Nat :=
  { complete := fun msgs mem _ => Except.ok (msgs ++ [UserMessage "go on"], mem) }

def ctxPlain : AgentContext Nat :=
  AgentContext.mk none none (some fun _ => "typed input") (fun _ => false)
    none none none

def ctxNoInput : AgentContext Nat :=
  AgentContext.mk none none none (fun _ => false) none none none

def stDone : AgentState Nat :=
  { id := none, model := modelEcho, messages := [], memory := none,
    halted := some HaltStatus.done }

def stAwait : AgentState Nat :=
  { id := some "s1", model := modelEcho, messages := [UserMessage "hello"],
    memory := some 7, halted := some HaltStatus.awaitUser }

def stRunFail : AgentState Nat :=
  { id := none, model := modelFail, messages := [UserMessage "hi"],
    memory := none, halted := none }

/- Claim C4 -/

/-- Claim C4: for every state whose halt status is Done or Stopped,
`stepAgent` is a fixed point: it returns a state equal to its input, with
messages, memory and halt status unchanged. -/
theorem stepAgent_terminal_fixed {M : Type} (ctx : AgentContext M)
    (state : AgentState M) (ri : Content → Bool)
    (h : state.halted = some HaltStatus.done ∨
      state.halted = some HaltStatus.stopped) :
    stepAgent ctx state ri = Except.ok state := by
  rcases h with h | h <;> simp [stepAgent, h, stepHalted]

/-- Witness for C4 at a concrete Done-halted state. -/
theorem stepAgent_terminal_fixed_witness :
    stepAgent ctxPlain stDone riNever = Except.ok stDone :=
  stepAgent_terminal_fixed ctxPlain stDone riNever (Or.inl rfl)

/- Claim C5 -/

/-- Claim C5: on an AwaitingUser-halted state, `stepAgent` raises a
configuration error when no user-input hook is registered, and otherwise
appends the hook's text as a user message and clears the halt status. -/
theorem stepAgent_awaitUser_behavior {M : Type} (ctx : AgentContext M)
    (state : AgentState M) (ri : Content → Bool)
    (h : state.halted = some HaltStatus.awaitUser) :
    (AgentContext.getUserInput ctx = none →
      stepAgent ctx state ri =
        Except.error "No getUserInput handler provided.") ∧
    (∀ g, AgentContext.getUserInput ctx = some g →
      stepAgent ctx state ri = Except.ok { state with
        messages := state.messages ++ [UserMessage (g state)],
        halted := none }) := by
  constructor
  · intro hg
    simp [stepAgent, h, stepHalted, hg]
  · intro g hg
    simp [stepAgent, h, stepHalted, hg]

/-- Witness for C5: a concrete AwaitingUser state with no input hook yields
the configuration error. -/
theorem stepAgent_awaitUser_behavior_witness :
    stAwait.halted = some HaltStatus.awaitUser ∧
    stepAgent ctxNoInput stAwait riNever =
      Except.error "No getUserInput handler provided." :=
  ⟨rfl, (stepAgent_awaitUser_behavior ctxNoInput stAwait riNever rfl).1 rfl⟩

/- Claim C10 -/

/-- Claim C10: resuming an AwaitingUser state via the user-input hook
changes nothing but messages and halt status: id, model and memory are
those of the input, messages are the old list plus one appended user
message, and the halt status is cleared. -/
theorem stepAgent_awaitUser_frame {M : Type} (ctx : AgentContext M)
    (state : AgentState M) (ri : Content → Bool)
    (g : AgentState M → String)
    (h : state.halted = some HaltStatus.awaitUser)
    (hg : AgentContext.getUserInput ctx = some g) :
    ∃ s2, stepAgent ctx state ri = Except.ok s2 ∧
      s2.id = state.id ∧ s2.model = state.model ∧
      s2.memory = state.memory ∧
      s2.messages = state.messages ++ [UserMessage (g state)] ∧
      s2.halted = none := by
  refine ⟨{ state with
      messages := state.messages ++ [UserMessage (g state)],
      halted := none }, ?_, rfl, rfl, rfl, rfl, rfl⟩
  simp [stepAgent, h, stepHalted, hg]

/-- Witness for C10 at a concrete AwaitingUser state with an input hook. -/
theorem stepAgent_awaitUser_frame_witness :
    ∃ s2, stepAgent ctxPlain stAwait riNever = Except.ok s2 ∧
      s2.id = stAwait.id ∧ s2.model = stAwait.model ∧
      s2.memory = stAwait.memory ∧
      s2.messages = stAwait.messages ++
        [UserMessage ((fun _ => "typed input") stAwait)] ∧
      s2.halted = none :=
  stepAgent_awaitUser_frame ctxPlain stAwait riNever (fun _ => "typed input")
    rfl rfl

/- Claim C6 -/

/-- Claim C6: when the model call fails on a non-halted state, `stepAgent`
does not propagate the error: it builds the input state with halt status
ToolError carrying that error, hands it to the recovery hook when one is
configured and returns the hook's result, and otherwise returns the
ToolError-halted state as-is (messages and memory unchanged). -/
theorem stepAgent_model_failure {M : Type} (ctx : AgentContext M)
    (state : AgentState M) (ri : Content → Bool) (e : String)
    (hrun : state.halted = none)
    (herr : Model.complete state.model state.messages state.memory
      (AgentContext.registry ctx) = Except.error e) :
    (∀ c, AgentContext.controller ctx = some c →
      stepAgent ctx state ri =
        Except.ok (c { state with halted := some (HaltStatus.toolError e) })) ∧
    (AgentContext.controller ctx = none →
      stepAgent ctx state ri =
        Except.ok { state with halted := some (HaltStatus.toolError e) }) := by
  constructor
  · intro c hc
    simp [stepAgent, hrun, stepRun, herr, hc]
  · intro hc
    simp [stepAgent, hrun, stepRun, herr, hc]

/-- Witness for C6: a concrete failing model with no recovery hook yields
the ToolError-halted state unchanged elsewhere. -/
theorem stepAgent_model_failure_witness :
    stepAgent ctxNoInput stRunFail riNever = Except.ok
      { stRunFail with halted := some (HaltStatus.toolError "network down") } :=
  (stepAgent_model_failure ctxNoInput stRunFail riNever "network down"
    rfl rfl).2 rfl

/- Claim C1 -/

def patchSetX : Mem Nat → Mem Nat := fun s => AList.insert "x" 1 s

def patchSetY : Mem Nat → Mem Nat := fun s => AList.insert "y" 2 s

/-- Claim C1: the claim demands that two patches writing disjoint key sets
compose successfully, but the code re-flags a key written by the first
patch while scanning the second patch's result (its value differs from the
original base), so `composePatches` raises a conflict even though the two
patches write the disjoint keys x and y.  This contradicts the function's
own doc comment ("throw if two patches write the same key"). -/
theorem composePatches_disjoint_conflict :
    (AList.lookup "x" (patchSetX (∅ : Mem Nat)) = some 1 ∧
      ∀ k, k ≠ "x" →
        AList.lookup k (patchSetX (∅ : Mem Nat)) =
          AList.lookup k (∅ : Mem Nat)) ∧
    (AList.lookup "y" (patchSetY (∅ : Mem Nat)) = some 2 ∧
      ∀ k, k ≠ "y" →
        AList.lookup k (patchSetY (∅ : Mem Nat)) =
          AList.lookup k (∅ : Mem Nat)) ∧
    composePatches (∅ : Mem Nat) [some patchSetX, some patchSetY] =
      Except.error "Memory-patch conflict on key x." := by
  refine ⟨⟨rfl, ?_⟩, ⟨rfl, ?_⟩, rfl⟩
  · intro k hk
    exact AList.lookup_insert_ne hk
  · intro k hk
    exact AList.lookup_insert_ne hk

/- Claim C9 -/

/-- Inner scan of `composePatches` never fails when the scanned key list has
no duplicates and no key is already recorded as written. -/
theorem recordWritten_ok_of_nodup {V : Type} [DecidableEq V] (memory : Mem V)
    (bk : List String) (acc : Mem V) :
    ∀ ks written, ks.Nodup → (∀ k ∈ ks, k ∉ written) →
      ∃ w, recordWritten memory bk acc written ks = Except.ok w := by
  intro ks
  induction ks with
  | nil => exact fun written _ _ => ⟨written, rfl⟩
  | cons k ks ih =>
      intro written hnd hw
      rw [List.nodup_cons] at hnd
      by_cases hcond : k ∉ bk ∨ AList.lookup k acc ≠ AList.lookup k memory
      · have hk : k ∉ written := hw k (List.mem_cons_self k ks)
        obtain ⟨w, hwr⟩ := ih (k :: written) hnd.2 (fun k2 hk2 => by
          rw [List.mem_cons]
          push_neg
          exact ⟨fun he => hnd.1 (he ▸ hk2), hw k2 (List.mem_cons_of_mem k hk2)⟩)
        exact ⟨w, by rw [recordWritten, if_pos hcond, if_neg hk]; exact hwr⟩
      · obtain ⟨w, hwr⟩ := ih written hnd.2
          (fun k2 hk2 => hw k2 (List.mem_cons_of_mem k hk2))
        exact ⟨w, by rw [recordWritten, if_neg hcond]; exact hwr⟩

/-- `composeLoop` skips `undefined` entries. -/
theorem composeLoop_all_none {V : Type} [DecidableEq V] (memory : Mem V) :
    ∀ ps, (∀ q ∈ ps, q = none) → ∀ acc written,
      composeLoop memory acc written ps = Except.ok acc := by
  intro ps
  induction ps with
  | nil => exact fun _ _ _ => rfl
  | cons q ps ih =>
      intro hps acc written
      have hq : q = none := hps q (List.mem_cons_self q ps)
      subst hq
      rw [composeLoop]
      exact ih (fun r hr => hps r (List.mem_cons_of_mem none hr)) acc written

/-- Claim C9: composing an empty patch list (or one of only undefined
entries) returns the base memory unchanged, and composing a single patch
returns exactly that patch applied to the base, never a conflict error. -/
theorem composePatches_empty_single {V : Type} [DecidableEq V] (m : Mem V)
    (p : Mem V → Mem V) (ps : List (Option (Mem V → Mem V)))
    (hps : ∀ q ∈ ps, q = none) :
    composePatches m ps = Except.ok m ∧
    composePatches m [some p] = Except.ok (p m) := by
  constructor
  · exact composeLoop_all_none m ps hps m []
  · obtain ⟨w, hw⟩ := recordWritten_ok_of_nodup m (AList.keys m) (p m)
      (AList.keys (p m)) [] (AList.keys_nodup (p m))
      (fun k _ => List.not_mem_nil k)
    simp [composePatches, composeLoop, hw]

/-- Witness for C9 at a concrete base memory, an insertion patch, and a
patch list containing only an undefined entry. -/
theorem composePatches_empty_single_witness :
    composePatches (AList.insert "a" 3 (∅ : Mem Nat)) [none] =
      Except.ok (AList.insert "a" 3 (∅ : Mem Nat)) ∧
    composePatches (AList.insert "a" 3 (∅ : Mem Nat))
        [some (fun s => AList.insert "b" 4 s)] =
      Except.ok (AList.insert "b" 4 (AList.insert "a" 3 (∅ : Mem Nat))) :=
  composePatches_empty_single (AList.insert "a" 3 (∅ : Mem Nat))
    (fun s => AList.insert "b" 4 s) [none] (by simp)

/- Claim C3 -/

/-- The instrumented loop agrees with `loopAgent` on the returned result. -/
theorem loopAgent_eq_steps {M : Type} (ctx : AgentContext M)
    (ri : Content → Bool) :
    ∀ n s, loopAgent ctx ri n s = (loopAgentSteps ctx ri n s).1 := by
  intro n
  induction n with
  | zero =>
      intro s
      rw [loopAgent, loopAgentSteps]
      split <;> rfl
  | succ n ih =>
      intro s
      rw [loopAgent, loopAgentSteps]
      split
      · rfl
      · cases hstep : stepAgent ctx s ri <;> simp [ih]

/-- The loop driver performs at most `n` transition calls. -/
theorem loopAgentSteps_le {M : Type} (ctx : AgentContext M)
    (ri : Content → Bool) :
    ∀ n s, (loopAgentSteps ctx ri n s).2 ≤ n := by
  intro n
  induction n with
  | zero =>
      intro s
      rw [loopAgentSteps]
      split <;> simp
  | succ n ih =>
      intro s
      rw [loopAgentSteps]
      split
      · simp
      · cases hstep : stepAgent ctx s ri with
        | error e => simp
        | ok next =>
            simpa using Nat.succ_le_succ (ih next)

/-- When every transition from a non-terminal state yields a non-terminal
state, the instrumented loop performs exactly its budget of calls and ends
Stopped. -/
theorem loopAgentSteps_exact {M : Type} (ctx : AgentContext M)
    (ri : Content → Bool)
    (hstep : ∀ s : AgentState M,
      ¬(s.halted = some HaltStatus.done ∨
        s.halted = some HaltStatus.stopped) →
      ∃ s2, stepAgent ctx s ri = Except.ok s2 ∧
        ¬(s2.halted = some HaltStatus.done ∨
          s2.halted = some HaltStatus.stopped)) :
    ∀ n s, ¬(s.halted = some HaltStatus.done ∨
        s.halted = some HaltStatus.stopped) →
      (loopAgentSteps ctx ri n s).2 = n ∧
      ∃ final, (loopAgentSteps ctx ri n s).1 = Except.ok final ∧
        final.halted = some HaltStatus.stopped := by
  intro n
  induction n with
  | zero =>
      intro s hs
      rw [loopAgentSteps, if_neg hs]
      exact ⟨rfl, ⟨{ s with halted := some HaltStatus.stopped }, rfl, rfl⟩⟩
  | succ n ih =>
      intro s hs
      obtain ⟨s2, h1, h2⟩ := hstep s hs
      rw [loopAgentSteps, if_neg hs]
      obtain ⟨hcount, final, hfinal, hhalt⟩ := ih s2 h2
      simp only [h1]
      exact ⟨by simpa using hcount, ⟨final, by simpa using hfinal, hhalt⟩⟩

/-- Claim C3: for every budget N the loop driver invokes `stepAgent` at
most N times, and when no transition ever produces a Done or Stopped halt
it performs exactly N calls and returns the state with halt status forced
to Stopped. -/
theorem loopAgent_budget {M : Type} (ctx : AgentContext M)
    (ri : Content → Bool) (N : Nat) (state : AgentState M)
    (hinit : ¬(state.halted = some HaltStatus.done ∨
      state.halted = some HaltStatus.stopped))
    (hstep : ∀ s : AgentState M,
      ¬(s.halted = some HaltStatus.done ∨
        s.halted = some HaltStatus.stopped) →
      ∃ s2, stepAgent ctx s ri = Except.ok s2 ∧
        ¬(s2.halted = some HaltStatus.done ∨
          s2.halted = some HaltStatus.stopped)) :
    (∀ n s, loopAgent ctx ri n s = (loopAgentSteps ctx ri n s).1 ∧
      (loopAgentSteps ctx ri n s).2 ≤ n) ∧
    (loopAgentSteps ctx ri N state).2 = N ∧
    ∃ final, loopAgent ctx ri N state = Except.ok final ∧
      final.halted = some HaltStatus.stopped := by
  obtain ⟨hcount, final, hfinal, hhalt⟩ := loopAgentSteps_exact ctx ri hstep N state hinit
  refine ⟨fun n s => ⟨loopAgent_eq_steps ctx ri n s, loopAgentSteps_le ctx ri n s⟩,
    hcount, final, ?_, hhalt⟩
  rw [loopAgent_eq_steps ctx ri N state]
  exact hfinal

/-- `finalizeStep` is the identity when the goal test is false and the
user-input heuristic never fires. -/
theorem finalizeStep_id_of_false {M : Type} (ctx : AgentContext M)
    (ri : Content → Bool) (ns : AgentState M)
    (hfin : AgentContext.isFinal ctx ns = false)
    (hri : ∀ c, ri c = false) :
    finalizeStep ctx ri ns = ns := by
  simp only [finalizeStep, hfin, hri, Bool.and_false, Bool.false_eq_true,
    if_false]
  split
  · rfl
  · split <;> rfl

/-- With the fixture context (no controller, goal test false, input hook
present) every transition from a non-terminal state is non-terminal. -/
theorem ctxPlain_step_no_terminal :
    ∀ s : AgentState Nat,
      ¬(s.halted = some HaltStatus.done ∨
        s.halted = some HaltStatus.stopped) →
      ∃ s2, stepAgent ctxPlain s riNever = Except.ok s2 ∧
        ¬(s2.halted = some HaltStatus.done ∨
          s2.halted = some HaltStatus.stopped) := by
  intro s hs
  match hh : s.halted with
  | some HaltStatus.done => exact absurd (Or.inl hh) hs
  | some HaltStatus.stopped => exact absurd (Or.inr hh) hs
  | some HaltStatus.awaitUser =>
      refine ⟨{ s with
        messages := s.messages ++ [UserMessage "typed input"],
        halted := none }, ?_, by simp⟩
      simp [stepAgent, hh, stepHalted, ctxPlain, AgentContext.getUserInput]
  | some (HaltStatus.toolError e) =>
      refine ⟨s, ?_, by simp [hh]⟩
      simp [stepAgent, hh, stepHalted, ctxPlain, AgentContext.controller]
  | none =>
      have hreg : AgentContext.registry ctxPlain = none := rfl
      have hctrl : AgentContext.controller ctxPlain = none := rfl
      cases hc : Model.complete s.model s.messages s.memory none with
      | error e =>
          refine ⟨{ s with halted := some (HaltStatus.toolError e) }, ?_, by simp⟩
          simp [stepAgent, hh, stepRun, hreg, hc, hctrl]
      | ok out =>
          obtain ⟨msgs2, mem2⟩ := out
          refine ⟨{ id := s.id, model := s.model, messages := msgs2, memory := mem2, halted := none }, ?_, by simp⟩
          have hfz : finalizeStep ctxPlain riNever
              { id := s.id, model := s.model, messages := msgs2,
                memory := mem2, halted := none } =
              { id := s.id, model := s.model, messages := msgs2,
                memory := mem2, halted := none } :=
            finalizeStep_id_of_false _ _ _ rfl (fun _ => rfl)
          simp [stepAgent, hh, stepRun, hreg, hc, hctrl, hfz]

/-- Witness for C3: with the fixture context no transition halts, so a
budget of 2 runs exactly 2 steps and forces Stopped. -/
theorem loopAgent_budget_witness :
    (∀ n s, loopAgent ctxPlain riNever n s =
        (loopAgentSteps ctxPlain riNever n s).1 ∧
      (loopAgentSteps ctxPlain riNever n s).2 ≤ n) ∧
    (loopAgentSteps ctxPlain riNever 2 stRunFail).2 = 2 ∧
    ∃ final, loopAgent ctxPlain riNever 2 stRunFail = Except.ok final ∧
      final.halted = some HaltStatus.stopped :=
  loopAgent_budget ctxPlain riNever 2 stRunFail (by simp [stRunFail])
    ctxPlain_step_no_terminal

/- Claim C2 -/

/-- Spec-side reading of claim C2, clause (b) first part: the last message
is an assistant message with absent or whitespace-only text content. -/
def lastIsEmptyAssistant (new : List Message) : Prop :=
  ∃ m, new.getLast? = some m ∧ m.role = Role.assistant ∧
    (m.content = none ∨ ∃ s, m.content = some (Content.text s) ∧ s.trim = "")

/-- Spec-side reading of claim C2, clause (b) second part: the two most
recent messages are both assistant messages. -/
def twoMostRecentAssistant (new : List Message) : Prop :=
  ∃ l a b, new = l ++ [a, b] ∧
    a.role = Role.assistant ∧ b.role = Role.assistant

/-- Spec-side stuck condition of claim C2. -/
def stuckClaim (old new : List Message) : Prop :=
  new.length = old.length ∨ lastIsEmptyAssistant new ∨
    twoMostRecentAssistant new

theorem isEmptyAssistant_spec (m? : Option Message) :
    isEmptyAssistantMessage m? = true ↔
      ∃ m, m? = some m ∧ m.role = Role.assistant ∧
        (m.content = none ∨
          ∃ s, m.content = some (Content.text s) ∧ s.trim = "") := by
  cases m? with
  | none => simp [isEmptyAssistantMessage, isAssistantMessage]
  | some m =>
      cases hmc : m.content with
      | none => simp [isEmptyAssistantMessage, isAssistantMessage, hmc]
      | some cc =>
          cases cc <;>
            simp [isEmptyAssistantMessage, isAssistantMessage, hmc]

theorem last_two_getElem (l : List Message) (a b : Message) :
    (l ++ [a, b])[(l ++ [a, b]).length - 1]? = some b ∧
    (l ++ [a, b])[(l ++ [a, b]).length - 2]? = some a := by
  have hlen : (l ++ [a, b]).length = l.length + 2 := by simp
  constructor
  · rw [hlen, show l.length + 2 - 1 = l.length + 1 from by omega,
      List.getElem?_append_right (by omega),
      show l.length + 1 - l.length = 1 from by omega]
    rfl
  · rw [hlen, show l.length + 2 - 2 = l.length from by omega,
      List.getElem?_append_right (by omega),
      show l.length - l.length = 0 from by omega]
    rfl

theorem exists_last_two_of_len (new : List Message) (h : 1 < new.length) :
    ∃ l a b, new = l ++ [a, b] := by
  match hr : new.reverse with
  | [] =>
      rw [List.reverse_eq_nil_iff] at hr
      subst hr
      simp at h
  | [x] =>
      have : new = [x] := by
        rw [← List.reverse_reverse new, hr]
        rfl
      subst this
      simp at h
  | b :: a :: t =>
      refine ⟨t.reverse, a, b, ?_⟩
      rw [← List.reverse_reverse new, hr]
      simp

theorem twoMostRecentAssistant_iff (new : List Message) :
    twoMostRecentAssistant new ↔ hasTwoAssistantInRow new = true := by
  constructor
  · rintro ⟨l, a, b, rfl, ha, hb⟩
    obtain ⟨h1, h2⟩ := last_two_getElem l a b
    have hlen : 1 < (l ++ [a, b]).length := by
      simp
    unfold hasTwoAssistantInRow
    rw [h1, h2]
    simp [isAssistantMessage, ha, hb, hlen]
  · intro h
    unfold hasTwoAssistantInRow at h
    simp only [Bool.and_eq_true, decide_eq_true_eq] at h
    obtain ⟨⟨hlen, hlast⟩, hprev⟩ := h
    obtain ⟨l, a, b, rfl⟩ := exists_last_two_of_len new hlen
    obtain ⟨h1, h2⟩ := last_two_getElem l a b
    rw [h1] at hlast
    rw [h2] at hprev
    refine ⟨l, a, b, rfl, ?_, ?_⟩
    · simpa [isAssistantMessage] using hprev
    · simpa [isAssistantMessage] using hlast

theorem isEmptyAssistant_isAssistant (m? : Option Message)
    (h : isEmptyAssistantMessage m? = true) : isAssistantMessage m? = true := by
  unfold isEmptyAssistantMessage at h
  rw [Bool.and_eq_true] at h
  exact h.1

theorem hasTwoAssistantInRow_isAssistant (l : List Message)
    (h : hasTwoAssistantInRow l = true) :
    isAssistantMessage l[l.length - 1]? = true := by
  unfold hasTwoAssistantInRow at h
  rw [Bool.and_eq_true, Bool.and_eq_true] at h
  exact h.1.2

/-- The spec-side stuck condition coincides with the boolean condition the
code computes. -/
theorem stuckClaim_iff_code (old new : List Message) :
    stuckClaim old new ↔
      ((new.length == old.length) ||
        (isAssistantMessage new[new.length - 1]? &&
          (isEmptyAssistantMessage new[new.length - 1]? ||
            hasTwoAssistantInRow new))) = true := by
  unfold stuckClaim
  have hempty : lastIsEmptyAssistant new ↔
      isEmptyAssistantMessage new[new.length - 1]? = true := by
    rw [← List.getLast?_eq_getElem?, isEmptyAssistant_spec]
    rfl
  rw [hempty, twoMostRecentAssistant_iff]
  simp only [Bool.or_eq_true, Bool.and_eq_true, beq_iff_eq]
  constructor
  · rintro (h | h | h)
    · exact Or.inl h
    · exact Or.inr ⟨isEmptyAssistant_isAssistant _ h, Or.inl h⟩
    · exact Or.inr ⟨hasTwoAssistantInRow_isAssistant _ h, Or.inr h⟩
  · rintro (h | ⟨ha, h | h⟩)
    · exact Or.inl h
    · exact Or.inr (Or.inl h)
    · exact Or.inr (Or.inr h)

/-- Claim C2: on a non-halted state whose model call succeeds, the code's
stuck test holds exactly under the claim's conditions, and when stuck with
a controller configured, `stepAgent` returns the controller applied to the
updated non-halted state, before the tool-message / user-input / goal-test
checks (which run only in the non-stuck case). -/
theorem stepAgent_stuck_classification {M : Type} (ctx : AgentContext M)
    (state : AgentState M) (ri : Content → Bool)
    (c : AgentState M → AgentState M) (msgs2 : List Message)
    (mem2 : Option M)
    (hrun : state.halted = none)
    (hc : AgentContext.controller ctx = some c)
    (hcomp : Model.complete state.model state.messages state.memory
      (AgentContext.registry ctx) = Except.ok (msgs2, mem2)) :
    (stuckClaim state.messages msgs2 ↔
      ((msgs2.length == state.messages.length) ||
        (isAssistantMessage msgs2[msgs2.length - 1]? &&
          (isEmptyAssistantMessage msgs2[msgs2.length - 1]? ||
            hasTwoAssistantInRow msgs2))) = true) ∧
    (stuckClaim state.messages msgs2 →
      stepAgent ctx state ri =
        Except.ok (c { state with messages := msgs2, memory := mem2 })) ∧
    (¬ stuckClaim state.messages msgs2 →
      stepAgent ctx state ri =
        Except.ok (finalizeStep ctx ri
          { state with messages := msgs2, memory := mem2 })) := by
  refine ⟨stuckClaim_iff_code state.messages msgs2, ?_, ?_⟩
  · intro hstuck
    have hb := (stuckClaim_iff_code state.messages msgs2).mp hstuck
    simp [stepAgent, hrun, stepRun, hcomp, hc, hb]
  · intro hn
    have hb : ((msgs2.length == state.messages.length) ||
        (isAssistantMessage msgs2[msgs2.length - 1]? &&
          (isEmptyAssistantMessage msgs2[msgs2.length - 1]? ||
            hasTwoAssistantInRow msgs2))) = false := by
      cases hbv : ((msgs2.length == state.messages.length) ||
        (isAssistantMessage msgs2[msgs2.length - 1]? &&
          (isEmptyAssistantMessage msgs2[msgs2.length - 1]? ||
            hasTwoAssistantInRow msgs2))) with
      | false => rfl
      | true =>
          exact absurd ((stuckClaim_iff_code state.messages msgs2).mpr hbv) hn
    simp [stepAgent, hrun, stepRun, hcomp, hc, hb]

def sysReminder : Message :=
  { role := Role.system, content := some (Content.text "Reminder") }

def ctrlAppend : AgentState Nat → AgentState Nat :=
  fun s => { s with messages := s.messages ++ [sysReminder] }

def ctxCtrl : AgentContext Nat :=
  AgentContext.mk none none none (fun _ => false) none none (some ctrlAppend)

def stRunEcho : AgentState Nat :=
  { id := none, model := modelEcho, messages := [UserMessage "hi"],
    memory := none, halted := none }

/-- Witness for C2: the echo model makes no progress, so the very first
step hands the updated state to the controller. -/
theorem stepAgent_stuck_classification_witness :
    stepAgent ctxCtrl stRunEcho riNever =
      Except.ok (ctrlAppend
        { stRunEcho with messages := [UserMessage "hi"], memory := none }) :=
  (stepAgent_stuck_classification ctxCtrl stRunEcho riNever ctrlAppend
    [UserMessage "hi"] none rfl rfl rfl).2.1 (Or.inl rfl)

/- Claim C7 -/

def memX1 : Mem Nat := AList.insert "x" 1 ∅

def patchBumpX : Mem Nat → Mem Nat := fun s => AList.insert "x" 2 s

def patchDropX : Mem Nat → Mem Nat := fun s => AList.erase "x" s

/-- Counterexample to claim C7 as stated: both patches change the value of
key x relative to the base (one overwrites it, one deletes it), yet the
composition [patchBumpX, patchDropX] succeeds instead of raising a
conflict — a deleted key never appears in the result scan. -/
theorem composePatches_same_key_no_conflict :
    AList.lookup "x" (patchBumpX memX1) ≠ AList.lookup "x" memX1 ∧
    AList.lookup "x" (patchDropX memX1) ≠ AList.lookup "x" memX1 ∧
    composePatches memX1 [some patchBumpX, some patchDropX] =
      Except.ok (∅ : Mem Nat) := by
  refine ⟨?_, ?_, rfl⟩
  · intro h
    rw [show AList.lookup "x" (patchBumpX memX1) = some 2 from rfl,
      show AList.lookup "x" memX1 = some 1 from rfl] at h
    simp at h
  · intro h
    rw [show AList.lookup "x" (patchDropX memX1) = none from rfl,
      show AList.lookup "x" memX1 = some 1 from rfl] at h
    exact Option.noConfusion h

/-- The scan records nothing for keys that are present in `beforeKeys` and
carry their base-memory value. -/
theorem recordWritten_skip {V : Type} [DecidableEq V] (memory : Mem V)
    (bk : List String) (acc : Mem V) :
    ∀ ks written,
      (∀ k ∈ ks, k ∈ bk ∧ AList.lookup k acc = AList.lookup k memory) →
      recordWritten memory bk acc written ks = Except.ok written := by
  intro ks
  induction ks with
  | nil => intro written _; rfl
  | cons k ks ih =>
      intro written hall
      obtain ⟨hmem, heq⟩ := hall k (List.mem_cons_self k ks)
      rw [recordWritten,
        if_neg (not_or.mpr ⟨not_not_intro hmem, not_not_intro heq⟩)]
      exact ih written (fun r hr => hall r (List.mem_cons_of_mem k hr))

/-- Composing two insertion patches on the same key, each storing a value
that differs from the base memory at that key, raises the conflict error. -/
theorem composePatches_insert_conflict {V : Type} [DecidableEq V]
    (m : Mem V) (x : String) (a b : V)
    (ha : some a ≠ AList.lookup x m) (hb : some b ≠ AList.lookup x m) :
    composePatches m
        [some (fun s => AList.insert x a s), some (fun s => AList.insert x b s)] =
      Except.error ("Memory-patch conflict on key " ++ x ++ ".") := by
  have h1 : recordWritten m (AList.keys m) (AList.insert x a m) []
      (AList.keys (AList.insert x a m)) = Except.ok [x] := by
    rw [show AList.keys (AList.insert x a m) = x :: (AList.keys m).erase x from
      AList.keys_insert m]
    rw [recordWritten,
      if_pos (Or.inr (by rw [AList.lookup_insert]; exact ha)),
      if_neg (List.not_mem_nil x)]
    refine recordWritten_skip m (AList.keys m) (AList.insert x a m) _ [x] ?_
    intro k hk
    have hk2 := (List.Nodup.mem_erase_iff (AList.keys_nodup m)).mp hk
    exact ⟨hk2.2, AList.lookup_insert_ne hk2.1⟩
  have h2 : recordWritten m (AList.keys (AList.insert x a m))
      (AList.insert x b (AList.insert x a m)) [x]
      (AList.keys (AList.insert x b (AList.insert x a m))) =
      Except.error ("Memory-patch conflict on key " ++ x ++ ".") := by
    rw [show AList.keys (AList.insert x b (AList.insert x a m)) =
      x :: (AList.keys (AList.insert x a m)).erase x from AList.keys_insert _]
    rw [recordWritten,
      if_pos (Or.inr (by rw [AList.lookup_insert]; exact hb)),
      if_pos (List.mem_singleton.mpr rfl)]
  simp only [composePatches, composeLoop, h1, h2]

/-- Claim C7 (amended): for insertion patches that both write key x with
values differing from the base memory at x, composition fails with the
memory-patch conflict error in both orders. -/
theorem composePatches_same_key_conflict {V : Type} [DecidableEq V]
    (m : Mem V) (x : String) (a b : V)
    (ha : some a ≠ AList.lookup x m) (hb : some b ≠ AList.lookup x m) :
    composePatches m
        [some (fun s => AList.insert x a s), some (fun s => AList.insert x b s)] =
      Except.error ("Memory-patch conflict on key " ++ x ++ ".") ∧
    composePatches m
        [some (fun s => AList.insert x b s), some (fun s => AList.insert x a s)] =
      Except.error ("Memory-patch conflict on key " ++ x ++ ".") :=
  ⟨composePatches_insert_conflict m x a b ha hb,
   composePatches_insert_conflict m x b a hb ha⟩

/-- Witness for C7 (amended) at the empty base memory with values 1 and 2
for key x. -/
theorem composePatches_same_key_conflict_witness :
    composePatches (∅ : Mem Nat)
        [some (fun s => AList.insert "x" 1 s), some (fun s => AList.insert "x" 2 s)] =
      Except.error ("Memory-patch conflict on key " ++ "x" ++ ".") ∧
    composePatches (∅ : Mem Nat)
        [some (fun s => AList.insert "x" 2 s), some (fun s => AList.insert "x" 1 s)] =
      Except.error ("Memory-patch conflict on key " ++ "x" ++ ".") :=
  composePatches_same_key_conflict (∅ : Mem Nat) "x" 1 2
    (by simp) (by simp)

/- Claim C8 -/

/-- A successful `loopAgent` run always ends in a terminal halt. -/
theorem loopAgent_ok_terminal {M : Type} (ctx : AgentContext M)
    (ri : Content → Bool) :
    ∀ n (s s2 : AgentState M), loopAgent ctx ri n s = Except.ok s2 →
      s2.halted = some HaltStatus.done ∨
        s2.halted = some HaltStatus.stopped := by
  intro n
  induction n with
  | zero =>
      intro s s2 h
      rw [loopAgent] at h
      by_cases hterm : s.halted = some HaltStatus.done ∨
          s.halted = some HaltStatus.stopped
      · rw [if_pos hterm] at h
        injection h with h2
        subst h2
        exact hterm
      · rw [if_neg hterm] at h
        injection h with h2
        rw [← h2]
        exact Or.inr rfl
  | succ n ih =>
      intro s s2 h
      rw [loopAgent] at h
      by_cases hterm : s.halted = some HaltStatus.done ∨
          s.halted = some HaltStatus.stopped
      · rw [if_pos hterm] at h
        injection h with h2
        subst h2
        exact hterm
      · rw [if_neg hterm] at h
        cases hstep : stepAgent ctx s ri with
        | error e => rw [hstep] at h; exact absurd h (by simp)
        | ok next => rw [hstep] at h; exact ih next s2 h

/-- The terminal state returned by `Sequence.next` is the run's result. -/
theorem next_ok_run {M : Type} (seq : Sequence M) (ri : Content → Bool)
    (u : Nat) (out : Sequence M × AgentState M)
    (h : Sequence.next seq ri u = Except.ok out) :
    Sequence.run seq ri = Except.ok out.2 := by
  unfold Sequence.next at h
  cases hr : Sequence.run seq ri with
  | error e => rw [hr] at h; exact absurd h (by simp)
  | ok terminal =>
      simp only [hr] at h
      by_cases hdone : terminal.halted = some HaltStatus.done
      · rw [if_pos hdone] at h
        cases hns : AgentContext.nextSequence seq.ctx with
        | none =>
            rw [hns] at h
            injection h with h2
            rw [← h2]
        | some f =>
            rw [hns] at h
            injection h with h2
            rw [← h2]
      · rw [if_neg hdone] at h
        injection h with h2
        rw [← h2]

/-- The terminal state carried by `Sequence.next` has a terminal halt. -/
theorem next_ok_halted {M : Type} (seq : Sequence M) (ri : Content → Bool)
    (u : Nat) (out : Sequence M × AgentState M)
    (h : Sequence.next seq ri u = Except.ok out) :
    out.2.halted = some HaltStatus.done ∨
      out.2.halted = some HaltStatus.stopped := by
  have hr := next_ok_run seq ri u out h
  unfold Sequence.run at hr
  exact loopAgent_ok_terminal seq.ctx ri seq.options.maxSteps seq.state out.2 hr

/-- `Sequence.next` returns the same uid exactly when the terminal halt is
not Done or no next-stage hook is configured. -/
theorem next_uid_iff {M : Type} (seq : Sequence M) (ri : Content → Bool)
    (fresh : Nat) (out : Sequence M × AgentState M)
    (hfresh : fresh ≠ seq.uid)
    (h : Sequence.next seq ri fresh = Except.ok out) :
    (out.1.uid = seq.uid ↔
      ¬(out.2.halted = some HaltStatus.done ∧
        (AgentContext.nextSequence seq.ctx).isSome = true)) := by
  unfold Sequence.next at h
  cases hr : Sequence.run seq ri with
  | error e => rw [hr] at h; exact absurd h (by simp)
  | ok terminal =>
      simp only [hr] at h
      by_cases hdone : terminal.halted = some HaltStatus.done
      · rw [if_pos hdone] at h
        cases hns : AgentContext.nextSequence seq.ctx with
        | none =>
            rw [hns] at h
            injection h with h2
            rw [← h2]
            simp [hdone, hns]
        | some f =>
            rw [hns] at h
            injection h with h2
            rw [← h2]
            simp [hdone, hns, hfresh]
      · rw [if_neg hdone] at h
        injection h with h2
        rw [← h2]
        simp [hdone]

/-- Invariant of the workflow loop: a successful run appends a non-empty
tail of history entries, every entry carries a terminally halted state,
and the last entry carries the final state. -/
theorem runWorkflowAux_props {M : Type} (ri : Content → Bool) :
    ∀ fuel fresh (cur : Sequence M) hist0 final hist,
      runWorkflowAux ri fuel fresh cur hist0 =
        some (Except.ok (final, hist)) →
      ∃ tail, hist = hist0 ++ tail ∧ tail ≠ [] ∧
        (∀ e ∈ tail, e.state.halted = some HaltStatus.done ∨
          e.state.halted = some HaltStatus.stopped) ∧
        ∃ le, tail.getLast? = some le ∧ le.state = final := by
  intro fuel
  induction fuel with
  | zero =>
      intro fresh cur hist0 final hist h
      exact absurd h (by rw [runWorkflowAux]; simp)
  | succ fuel ih =>
      intro fresh cur hist0 final hist h
      rw [runWorkflowAux] at h
      cases hn : Sequence.next cur ri fresh with
      | error e => rw [hn] at h; exact absurd h (by simp)
      | ok out =>
          obtain ⟨nxt, st⟩ := out
          have hterm : st.halted = some HaltStatus.done ∨
              st.halted = some HaltStatus.stopped :=
            next_ok_halted cur ri fresh (nxt, st) hn
          simp only [hn] at h
          by_cases huid : nxt.uid = cur.uid
          · rw [if_pos huid] at h
            simp only [Option.some.injEq, Except.ok.injEq,
              Prod.mk.injEq] at h
            obtain ⟨hst, hh⟩ := h
            refine ⟨[{ cur with state := st }], hh.symm, by simp, ?_, ?_⟩
            · intro e he
              rw [List.mem_singleton] at he
              subst he
              exact hterm
            · exact ⟨{ cur with state := st }, rfl, hst⟩
          · rw [if_neg huid] at h
            obtain ⟨tail, htl, hne, hall, le, hlast, hstate⟩ :=
              ih (fresh + 1) nxt (hist0 ++ [{ cur with state := st }])
                final hist h
            refine ⟨{ cur with state := st } :: tail, ?_, by simp, ?_,
              le, ?_, hstate⟩
            · rw [htl]
              simp
            · intro e he
              rcases List.mem_cons.mp he with he | he
              · subst he
                exact hterm
              · exact hall e he
            · cases tail with
              | nil => exact absurd rfl hne
              | cons hd tl =>
                  rw [List.getLast?_cons_cons]
                  exact hlast

/-- Claim C8: the workflow driver stops exactly when `Sequence.next`
returns an identity-equal sequence, which happens precisely when the
terminal halt is not Done or no next-stage hook is configured; on success
it returns the terminal state plus a non-empty history whose entries all
carry the terminal state their run reached, the last one being the final
state. -/
theorem runWorkflow_identity_termination {M : Type} (ri : Content → Bool)
    (seq : Sequence M) (fresh : Nat) (out : Sequence M × AgentState M)
    (fuel : Nat) (init : Sequence M) (final : AgentState M)
    (hist : List (Sequence M))
    (hfresh : fresh ≠ seq.uid)
    (hnext : Sequence.next seq ri fresh = Except.ok out)
    (hrun : runWorkflow ri fuel init = some (Except.ok (final, hist))) :
    (out.1.uid = seq.uid ↔
      ¬(out.2.halted = some HaltStatus.done ∧
        (AgentContext.nextSequence seq.ctx).isSome = true)) ∧
    hist ≠ [] ∧
    (∀ e ∈ hist, e.state.halted = some HaltStatus.done ∨
      e.state.halted = some HaltStatus.stopped) ∧
    ∃ le, hist.getLast? = some le ∧ le.state = final := by
  obtain ⟨tail, htl, hne, hall, hle⟩ :=
    runWorkflowAux_props ri fuel (init.uid + 1) init [] final hist hrun
  rw [List.nil_append] at htl
  subst htl
  exact ⟨next_uid_iff seq ri fresh out hfresh hnext, hne, hall, hle⟩

def seqDone : Sequence Nat :=
  { uid := 0, ctx := ctxNoInput, state := stDone,
    options := { maxSteps := 3, preserveInput := false } }

/-- Witness for C8: a sequence already halted Done with no next-stage hook
makes the workflow stop after one iteration with a one-entry history. -/
theorem runWorkflow_identity_termination_witness :
    ((seqDone, stDone).1.uid = seqDone.uid ↔
      ¬((seqDone, stDone).2.halted = some HaltStatus.done ∧
        (AgentContext.nextSequence seqDone.ctx).isSome = true)) ∧
    ([seqDone] : List (Sequence Nat)) ≠ [] ∧
    (∀ e ∈ [seqDone], e.state.halted = some HaltStatus.done ∨
      e.state.halted = some HaltStatus.stopped) ∧
    ∃ le, ([seqDone] : List (Sequence Nat)).getLast? = some le ∧
      le.state = stDone :=
  runWorkflow_identity_termination riNever seqDone 1 (seqDone, stDone) 1
    seqDone stDone [seqDone] (by simp [seqDone]) rfl rfl
